import Mathlib

/-!
Shallow embedding of `src/RateLimiter.h` (a token-bucket rate limiter for
Arduino-style platforms).

The C++ class is
`template <DurationType Period, TokenType CallsPerPeriod> class RateLimiter`,
with `DurationType = TokenType = unsigned long` and `dropped_calls_` of type
`unsigned int`.  Machine integers are modelled as natural numbers reduced
modulo the corresponding type's modulus: `Mul` is `2 ^ (bits of unsigned
long)` and `Mui` is `2 ^ (bits of unsigned int)`.  The definitions are
parametric in the two moduli (on AVR targets `Mui = 2^16`, `Mul = 2^32`; on
ARM targets both are `2^32`); concrete evaluations below use
`Mul = 2^32, Mui = 2^16`.

The time source (`millis()` via `TimeNow()`) and the suspend primitive
(`delay()`) are external collaborators, so every observation of the clock is
an explicit argument of the corresponding operation.  Invocations of the
caller-supplied action `fn` and of the dropped-call callback are recorded as
an explicit event trace.
-/

namespace RateLimiter

/-- Static configuration: the two template parameters and the two machine
integer moduli. `Period` and `CallsPerPeriod` are `unsigned long` template
values, so a faithful configuration has them below `Mul`. -/
structure Config where
  Period : Nat
  CallsPerPeriod : Nat
  /-- modulus of `unsigned long` (`DurationType` / `TokenType`), e.g. `2^32` -/
  Mul : Nat
  /-- modulus of `unsigned int` (type of `dropped_calls_` and `new_tokens`), e.g. `2^16` -/
  Mui : Nat
  deriving Repr, DecidableEq

/-- Well-formedness of a configuration: positive template parameters (the
source divides by both), template values representable as `unsigned long`,
and `unsigned int` no wider than `unsigned long`. -/
def Config.WF (cfg : Config) : Prop :=
  0 < cfg.Period ∧ cfg.Period < cfg.Mul ∧
  0 < cfg.CallsPerPeriod ∧ cfg.CallsPerPeriod < cfg.Mul ∧
  0 < cfg.Mui ∧ cfg.Mui ≤ cfg.Mul

instance (cfg : Config) : Decidable cfg.WF := by
  unfold Config.WF; infer_instance

/-- Observable events: an invocation of the caller-supplied action `fn()`,
or an invocation of the dropped-call callback with its `unsigned int`
argument. -/
inductive Event where
  | fnCall : Event
  | dropCb (count : Nat) : Event
  deriving Repr, DecidableEq

/-- The mutable state of a `RateLimiter` object: `bucket_ : TokenType`,
`last_bucket_update_ : DurationType`, `dropped_calls_ : unsigned int`, and
whether `dropped_callback_` holds a callable (`std::function` truthiness). -/
structure RLState where
  bucket : Nat
  last : Nat
  dropped : Nat
  hasCallback : Bool
  deriving Repr, DecidableEq

/-- Constructor
`RateLimiter() : bucket_(CallsPerPeriod), last_bucket_update_(TimeNow()), dropped_calls_(0)`.
`dropped_callback_` is default-constructed (empty). There is no validity
check on the template parameters. -/
def init (cfg : Config) (now : Nat) : RLState :=
  { bucket := cfg.CallsPerPeriod, last := now, dropped := 0, hasCallback := false }

/-- `SetDroppedCallCallback(fn)`: stores the callback (side effect only). -/
def SetDroppedCallCallback (s : RLState) : RLState :=
  { s with hasCallback := true }

/-- `GetElapsedTime()`:
`if (now < last_bucket_update_) return max() - last_bucket_update_ + now;
 else return now - last_bucket_update_;`
where `max() = Mul - 1` is `std::numeric_limits<DurationType>::max()`. -/
def GetElapsedTime (cfg : Config) (last now : Nat) : Nat :=
  if now < last then (cfg.Mul - 1) - last + now else now - last

/-- The value of `new_tokens` computed by `UpdateBucket` at time `now`:
`unsigned int new_tokens = elapsed_time * CallsPerPeriod / Period;`.
The product is `unsigned long` arithmetic (mod `Mul`); the assignment
truncates to `unsigned int` (mod `Mui`). -/
def newTokensAt (cfg : Config) (s : RLState) (now : Nat) : Nat :=
  (GetElapsedTime cfg s.last now * cfg.CallsPerPeriod % cfg.Mul / cfg.Period) % cfg.Mui

/-- `UpdateBucket()`:
`bucket_ += new_tokens; bucket_ = min(bucket_, CallsPerPeriod);
 last_bucket_update_ += new_tokens * Period / CallsPerPeriod;`
with all `unsigned long` arithmetic mod `Mul` (`new_tokens` is promoted
back to `unsigned long` in both expressions). -/
def UpdateBucket (cfg : Config) (s : RLState) (now : Nat) : RLState :=
  let new_tokens := newTokensAt cfg s now
  { s with
    bucket := min ((s.bucket + new_tokens) % cfg.Mul) cfg.CallsPerPeriod,
    last := (s.last + new_tokens * cfg.Period % cfg.Mul / cfg.CallsPerPeriod) % cfg.Mul }

/-- `EstimateWaitTime()`:
`time_per_token = Period / CallsPerPeriod;` then
`time_per_token - elapsed_time` guarded against underflow. -/
def EstimateWaitTime (cfg : Config) (s : RLState) (now : Nat) : Nat :=
  let time_per_token := cfg.Period / cfg.CallsPerPeriod
  let elapsed_time := GetElapsedTime cfg s.last now
  if time_per_token > elapsed_time then time_per_token - elapsed_time else 0

/-- `MaybeCallDroppedCallCallback()`:
`if (dropped_callback_ && dropped_calls_ > 0) { dropped_callback_(dropped_calls_); dropped_calls_ = 0; }`.
Returns the new state and the emitted callback events. -/
def MaybeCallDroppedCallCallback (s : RLState) : RLState × List Event :=
  if s.hasCallback ∧ 0 < s.dropped then
    ({ s with dropped := 0 }, [Event.dropCb s.dropped])
  else
    (s, [])

/-- `CallOrDrop(fn)`: refill, then either admit (flush drop notification,
run `fn`, decrement the bucket, return `true`) or drop (increment
`dropped_calls_` mod `Mui`, return `false`).  Returns the boolean result,
the new state, and the emitted events in order. -/
def CallOrDrop (cfg : Config) (s : RLState) (now : Nat) : Bool × RLState × List Event :=
  let s1 := UpdateBucket cfg s now
  if 0 < s1.bucket then
    let p := MaybeCallDroppedCallCallback s1
    (true, { p.1 with bucket := p.1.bucket - 1 }, p.2 ++ [Event.fnCall])
  else
    (false, { s1 with dropped := (s1.dropped + 1) % cfg.Mui }, [])

/-- The waiting loop of `Call(fn)`:
`while (bucket_ == 0) { delay(EstimateWaitTime()); UpdateBucket(); }`.
Each iteration reads the clock twice: once inside `EstimateWaitTime`
(time `tw`) and once inside `UpdateBucket` (time `tu`); `nows` lists those
pairs of successive clock readings.  Returns the state on loop exit
together with the list of durations passed to `delay`, or `none` when the
supplied clock readings are exhausted with the bucket still empty (the
real loop would simply keep waiting). -/
def callLoop (cfg : Config) (s : RLState) : List (Nat × Nat) → Option (RLState × List Nat)
  | [] => if s.bucket = 0 then none else some (s, [])
  | (tw, tu) :: rest =>
      if s.bucket = 0 then
        match callLoop cfg (UpdateBucket cfg s tu) rest with
        | none => none
        | some (s2, ws) => some (s2, EstimateWaitTime cfg s tw :: ws)
      else
        some (s, [])

/-- `Call(fn)`: refill at time `now0`, wait until the bucket is non-empty,
then flush the drop notification, decrement the bucket and run `fn`,
returning its result `fnRes`.  Produces the returned value, the final
state, the emitted events, and the durations passed to `delay`; `none`
means the supplied clock readings ran out while still waiting. -/
def Call {α : Type} (cfg : Config) (fnRes : α) (s : RLState) (now0 : Nat)
    (nows : List (Nat × Nat)) : Option (α × RLState × List Event × List Nat) :=
  let s1 := UpdateBucket cfg s now0
  match callLoop cfg s1 nows with
  | none => none
  | some (s2, ws) =>
      let p := MaybeCallDroppedCallCallback s2
      some (fnRes, { p.1 with bucket := p.1.bucket - 1 }, p.2 ++ [Event.fnCall], ws)

/-- Run a sequence of `CallOrDrop` invocations at the given clock readings,
collecting the final state, the list of boolean results, and all events. -/
def runCOD (cfg : Config) (s : RLState) : List Nat → RLState × List Bool × List Event
  | [] => (s, [], [])
  | t :: ts =>
      let r := CallOrDrop cfg s t
      let rest := runCOD cfg r.2.1 ts
      (rest.1, r.1 :: rest.2.1, r.2.2 ++ rest.2.2)

/-- Specification-level drop counter: the number of rejections since the
last admission, replayed from a list of `CallOrDrop` results starting from
an initial pending count (an admission resets the count, a rejection
increments it). -/
def trailingDrops (d : Nat) (rs : List Bool) : Nat :=
  rs.foldl (fun a r => if r then 0 else a + 1) d

/-- States reachable from construction by the public operations (and the
internal refill step, which each of them performs). The `Call` transition
covers every run of the blocking operation that has been admitted. -/
inductive Reachable (cfg : Config) : RLState → Prop where
  | init : cfg.WF → ∀ now, Reachable cfg (init cfg now)
  | setCb : ∀ {s}, Reachable cfg s → Reachable cfg (SetDroppedCallCallback s)
  | update : ∀ {s} (now : Nat), Reachable cfg s → Reachable cfg (UpdateBucket cfg s now)
  | callOrDrop : ∀ {s} (now : Nat), Reachable cfg s → Reachable cfg (CallOrDrop cfg s now).2.1
  | call : ∀ {s} (now0 : Nat) (nows : List (Nat × Nat))
      {r : Unit × RLState × List Event × List Nat},
      Reachable cfg s → Call cfg () s now0 nows = some r → Reachable cfg r.2.1

/-- The spec's example configuration: `capacity = 5`, `period = 1000`,
32-bit `unsigned long`, 16-bit `unsigned int` (AVR). -/
def cfgA : Config := { Period := 1000, CallsPerPeriod := 5, Mul := 2 ^ 32, Mui := 2 ^ 16 }

/-- `capacity = 3`, `period = 2`: a configuration whose per-token time
`period/capacity` floors to zero ticks of `last_bucket_update_` advance. -/
def cfgB : Config := { Period := 2, CallsPerPeriod := 3, Mul := 2 ^ 32, Mui := 2 ^ 16 }

/-- `capacity = 2`, `period = 1000`: used to exhibit overflow of
`elapsed_time * CallsPerPeriod`. -/
def cfgC : Config := { Period := 1000, CallsPerPeriod := 2, Mul := 2 ^ 32, Mui := 2 ^ 16 }

/-- `capacity = 1`, `period = 2`. -/
def cfgD : Config := { Period := 2, CallsPerPeriod := 1, Mul := 2 ^ 32, Mui := 2 ^ 16 }

/-- A misconfiguration: `capacity = 0`. -/
def cfgZ : Config := { Period := 1000, CallsPerPeriod := 0, Mul := 2 ^ 32, Mui := 2 ^ 16 }

end RateLimiter

namespace RateLimiter

/-- Claim C1: the spec says a wrapped elapsed time is
`(MAX_TICK - last_refill_tick) + now() + 1`, the true modular distance.
The code (`GetElapsedTime`, wrap branch) computes
`max() - last_bucket_update_ + now`, one less: with
`last_bucket_update_ = 2^32 - 1` and `now = 0` the true wrap distance (and
the claimed value) is `1`, but the code returns `0`. -/
theorem C1_getElapsedTime_wrap_missing_one :
    GetElapsedTime cfgA (2 ^ 32 - 1) 0 = 0 ∧
    (cfgA.Mul - 1) - (2 ^ 32 - 1) + 0 + 1 = 1 ∧ (0 : Nat) ≠ 1 := by
  decide

/-- Claim C3: with `period = 2` and `capacity = 3`, starting from
construction at tick 0, seven consecutive `CallOrDrop` invocations at ticks
`0,0,0,1,1,1,1` are all admitted. All seven ticks lie inside the window
`{0, 1}` of `period = 2` consecutive ticks, yet `7 > capacity = 3`: the
refill step advances `last_bucket_update_` by
`new_tokens * Period / CallsPerPeriod = 1 * 2 / 3 = 0`, so the same elapsed
tick is re-credited on every call. -/
theorem C3_window_admissions_exceed_capacity :
    (runCOD cfgB (init cfgB 0) [0, 0, 0, 1, 1, 1, 1]).2.1 = List.replicate 7 true ∧
    (∀ t ∈ [0, 0, 0, 1, 1, 1, 1], t < cfgB.Period) ∧
    cfgB.CallsPerPeriod < 7 := by
  decide

/-- Claim C4: `CallOrDrop` first refills; if the refilled bucket is
positive it flushes the pending drop notification, invokes `fn` exactly
once, decrements the bucket by one and returns `true`; otherwise it does
not invoke `fn`, increments `dropped_calls_` by one (as an `unsigned int`)
and returns `false`. -/
theorem C4_CallOrDrop_behavior (cfg : Config) (s : RLState) (now : Nat) :
    CallOrDrop cfg s now =
      if 0 < (UpdateBucket cfg s now).bucket then
        (true,
         { bucket := (UpdateBucket cfg s now).bucket - 1,
           last := (UpdateBucket cfg s now).last,
           dropped := if s.hasCallback = true ∧ 0 < s.dropped then 0 else s.dropped,
           hasCallback := s.hasCallback },
         (if s.hasCallback = true ∧ 0 < s.dropped then [Event.dropCb s.dropped] else [])
           ++ [Event.fnCall])
      else
        (false,
         { bucket := (UpdateBucket cfg s now).bucket,
           last := (UpdateBucket cfg s now).last,
           dropped := (s.dropped + 1) % cfg.Mui,
           hasCallback := s.hasCallback },
         []) := by
  simp only [CallOrDrop, MaybeCallDroppedCallCallback, UpdateBucket]
  split
  · split <;> simp_all
  · simp

/-- Claim C5 (counterexample): the refill step does not always add
`floor(elapsed * capacity / period)` tokens. With `capacity = 2`,
`period = 1000`, `last_bucket_update_ = 0` and `now = 2^31`, the product
`elapsed * capacity = 2^32` overflows `unsigned long` to `0`, so the code
adds `0` tokens and leaves the bucket empty, while the claimed exact value
is `floor(2^31 * 2 / 1000) = 4294967`, which would fill the bucket to
`min(0 + 4294967, 2) = 2`. -/
theorem C5_refill_overflow_counterexample :
    UpdateBucket cfgC { bucket := 0, last := 0, dropped := 0, hasCallback := false } (2 ^ 31) =
      { bucket := 0, last := 0, dropped := 0, hasCallback := false } ∧
    GetElapsedTime cfgC 0 (2 ^ 31) * cfgC.CallsPerPeriod / cfgC.Period = 4294967 ∧
    min (0 + GetElapsedTime cfgC 0 (2 ^ 31) * cfgC.CallsPerPeriod / cfgC.Period)
      cfgC.CallsPerPeriod = 2 ∧ (0 : Nat) ≠ 2 := by
  decide

/-- Claim C5 (amended): whenever `elapsed * capacity` does not overflow
`unsigned long`, the quotient fits `unsigned int`, and `tokens +
new_tokens` does not overflow, the refill step adds exactly
`new_tokens = floor(elapsed * capacity / period)` tokens, caps the bucket
at `min(tokens + new_tokens, capacity)`, and advances `last_bucket_update_`
by exactly `new_tokens * period / capacity` (modulo the tick width). -/
theorem C5_refill_exact_no_overflow (cfg : Config) (s : RLState) (now : Nat)
    (hWF : cfg.WF)
    (hmul : GetElapsedTime cfg s.last now * cfg.CallsPerPeriod < cfg.Mul)
    (hfit : GetElapsedTime cfg s.last now * cfg.CallsPerPeriod / cfg.Period < cfg.Mui)
    (hsum : s.bucket + GetElapsedTime cfg s.last now * cfg.CallsPerPeriod / cfg.Period
      < cfg.Mul) :
    UpdateBucket cfg s now =
      { bucket := min (s.bucket + GetElapsedTime cfg s.last now * cfg.CallsPerPeriod
            / cfg.Period) cfg.CallsPerPeriod,
        last := (s.last + (GetElapsedTime cfg s.last now * cfg.CallsPerPeriod / cfg.Period)
            * cfg.Period / cfg.CallsPerPeriod) % cfg.Mul,
        dropped := s.dropped,
        hasCallback := s.hasCallback } := by
  obtain ⟨hP, hPM, hC, hCM, hui, huiM⟩ := hWF
  have h1 : GetElapsedTime cfg s.last now * cfg.CallsPerPeriod % cfg.Mul =
      GetElapsedTime cfg s.last now * cfg.CallsPerPeriod := Nat.mod_eq_of_lt hmul
  have hn : newTokensAt cfg s now =
      GetElapsedTime cfg s.last now * cfg.CallsPerPeriod / cfg.Period := by
    rw [newTokensAt, h1, Nat.mod_eq_of_lt hfit]
  have hprod : (GetElapsedTime cfg s.last now * cfg.CallsPerPeriod / cfg.Period)
      * cfg.Period ≤ GetElapsedTime cfg s.last now * cfg.CallsPerPeriod :=
    Nat.div_mul_le_self _ _
  have h2 : (GetElapsedTime cfg s.last now * cfg.CallsPerPeriod / cfg.Period)
      * cfg.Period % cfg.Mul =
      (GetElapsedTime cfg s.last now * cfg.CallsPerPeriod / cfg.Period) * cfg.Period :=
    Nat.mod_eq_of_lt (lt_of_le_of_lt hprod hmul)
  simp only [UpdateBucket, hn, h2, Nat.mod_eq_of_lt hsum]

/-- Witness for C5 (amended): `capacity = 5`, `period = 1000`, empty bucket,
400 elapsed ticks: none of the products overflow, and the refill adds
exactly `floor(400 * 5 / 1000) = 2` tokens and advances
`last_bucket_update_` by exactly `2 * 1000 / 5 = 400`. -/
theorem C5_refill_exact_no_overflow_witness :
    cfgA.WF ∧
    UpdateBucket cfgA { bucket := 0, last := 0, dropped := 1, hasCallback := true } 400 =
      { bucket := 2, last := 400, dropped := 1, hasCallback := true } := by
  refine ⟨by decide, ?_⟩
  have h := C5_refill_exact_no_overflow cfgA
    { bucket := 0, last := 0, dropped := 1, hasCallback := true } 400
    (by decide) (by decide) (by decide) (by decide)
  rw [h]; decide

/-- Claim C9: the constructor performs no validity check: constructing with
`capacity = 0` (configuration `cfgZ`, which is not well-formed) succeeds
and yields an ordinary state, rather than being rejected; the zero divisor
is then reachable by the token/time computations. -/
theorem C9_construction_unchecked :
    init cfgZ 5 = { bucket := 0, last := 5, dropped := 0, hasCallback := false } ∧
    ¬ cfgZ.WF := by
  decide

/-- Claim C10: running the refill step with `now()` equal to
`last_bucket_update_` (zero elapsed ticks) leaves the state unchanged,
for any state with `tokens ≤ capacity` under a well-formed configuration. -/
theorem C10_zero_elapsed_refill_identity (cfg : Config) (s : RLState)
    (hWF : cfg.WF) (hb : s.bucket ≤ cfg.CallsPerPeriod) (hl : s.last < cfg.Mul) :
    UpdateBucket cfg s s.last = s := by
  obtain ⟨hP, hPM, hC, hCM, hui, huiM⟩ := hWF
  have he : GetElapsedTime cfg s.last s.last = 0 := by
    simp [GetElapsedTime]
  have hn : newTokensAt cfg s s.last = 0 := by
    simp [newTokensAt, he]
  have hbM : s.bucket < cfg.Mul := lt_of_le_of_lt hb hCM
  simp [UpdateBucket, hn, Nat.mod_eq_of_lt hbM, Nat.mod_eq_of_lt hl, Nat.min_eq_left hb]

/-- Witness for C10: a concrete refill at `now = last_bucket_update_ = 77`
leaves the state `⟨3, 77, 2, true⟩` unchanged under `cfgA`. -/
theorem C10_zero_elapsed_refill_identity_witness :
    cfgA.WF ∧ (3 : Nat) ≤ cfgA.CallsPerPeriod ∧ (77 : Nat) < cfgA.Mul ∧
    UpdateBucket cfgA { bucket := 3, last := 77, dropped := 2, hasCallback := true } 77 =
      { bucket := 3, last := 77, dropped := 2, hasCallback := true } :=
  ⟨by decide, by decide, by decide,
   C10_zero_elapsed_refill_identity cfgA
     { bucket := 3, last := 77, dropped := 2, hasCallback := true }
     (by decide) (by decide) (by decide)⟩

end RateLimiter

namespace RateLimiter

theorem UpdateBucket_bucket_le (cfg : Config) (s : RLState) (now : Nat) :
    (UpdateBucket cfg s now).bucket ≤ cfg.CallsPerPeriod :=
  min_le_right _ _

theorem UpdateBucket_dropped (cfg : Config) (s : RLState) (now : Nat) :
    (UpdateBucket cfg s now).dropped = s.dropped := rfl

theorem UpdateBucket_hasCallback (cfg : Config) (s : RLState) (now : Nat) :
    (UpdateBucket cfg s now).hasCallback = s.hasCallback := rfl

theorem UpdateBucket_last_lt (cfg : Config) (s : RLState) (now : Nat) (h : 0 < cfg.Mul) :
    (UpdateBucket cfg s now).last < cfg.Mul :=
  Nat.mod_lt _ h

theorem MaybeCall_bucket (s : RLState) :
    (MaybeCallDroppedCallCallback s).1.bucket = s.bucket := by
  unfold MaybeCallDroppedCallCallback
  split <;> rfl

theorem MaybeCall_last (s : RLState) :
    (MaybeCallDroppedCallCallback s).1.last = s.last := by
  unfold MaybeCallDroppedCallCallback
  split <;> rfl

theorem MaybeCall_dropped (s : RLState) :
    (MaybeCallDroppedCallCallback s).1.dropped = 0 ∨
    (MaybeCallDroppedCallCallback s).1.dropped = s.dropped := by
  unfold MaybeCallDroppedCallCallback
  split
  · exact Or.inl rfl
  · exact Or.inr rfl

theorem MaybeCall_count_fnCall (s : RLState) :
    (MaybeCallDroppedCallCallback s).2.count Event.fnCall = 0 := by
  unfold MaybeCallDroppedCallCallback
  split <;> simp

theorem callLoop_bucket_le (cfg : Config) :
    ∀ (l : List (Nat × Nat)) (s : RLState), s.bucket ≤ cfg.CallsPerPeriod →
    ∀ {s2 : RLState} {ws : List Nat}, callLoop cfg s l = some (s2, ws) →
    s2.bucket ≤ cfg.CallsPerPeriod := by
  intro l
  induction l with
  | nil =>
      intro s hb s2 ws h
      by_cases hz : s.bucket = 0
      · simp [callLoop, hz] at h
      · simp only [callLoop, if_neg hz, Option.some.injEq, Prod.mk.injEq] at h
        exact h.1 ▸ hb
  | cons q rest ih =>
      intro s hb s2 ws h
      obtain ⟨tw, tu⟩ := q
      by_cases hz : s.bucket = 0
      · simp only [callLoop, if_pos hz] at h
        cases hrec : callLoop cfg (UpdateBucket cfg s tu) rest with
        | none => rw [hrec] at h; exact absurd h (by simp)
        | some r =>
            obtain ⟨s3, ws3⟩ := r
            rw [hrec] at h
            simp only [Option.some.injEq, Prod.mk.injEq] at h
            exact h.1 ▸ ih (UpdateBucket cfg s tu) (UpdateBucket_bucket_le ..) hrec
      · simp only [callLoop, if_neg hz, Option.some.injEq, Prod.mk.injEq] at h
        exact h.1 ▸ hb

theorem Call_bucket_le {α : Type} (cfg : Config) (fnRes : α) (s : RLState) (now0 : Nat)
    (nows : List (Nat × Nat)) {r : α × RLState × List Event × List Nat}
    (h : Call cfg fnRes s now0 nows = some r) :
    r.2.1.bucket ≤ cfg.CallsPerPeriod := by
  simp only [Call] at h
  cases hloop : callLoop cfg (UpdateBucket cfg s now0) nows with
  | none => rw [hloop] at h; exact absurd h (by simp)
  | some q =>
      obtain ⟨s2, ws⟩ := q
      rw [hloop] at h
      simp only [Option.some.injEq] at h
      have hs2 : s2.bucket ≤ cfg.CallsPerPeriod :=
        callLoop_bucket_le cfg nows (UpdateBucket cfg s now0) (UpdateBucket_bucket_le ..) hloop
      have hb : r.2.1.bucket = (MaybeCallDroppedCallCallback s2).1.bucket - 1 := by
        rw [← h]
      rw [hb, MaybeCall_bucket]
      exact le_trans (Nat.sub_le _ _) hs2

/-- Claim C2: in every state reachable from construction through the
public operations (and the internal refill step), the token count
satisfies `0 ≤ tokens ≤ capacity`; since reachability is closed under
every operation, the bound holds both before and after each of them. -/
theorem C2_bucket_within_capacity (cfg : Config) (s : RLState) (h : Reachable cfg s) :
    0 ≤ s.bucket ∧ s.bucket ≤ cfg.CallsPerPeriod := by
  refine ⟨Nat.zero_le _, ?_⟩
  induction h with
  | init hWF now => exact le_refl _
  | setCb _ ih => exact ih
  | update now _ ih => exact UpdateBucket_bucket_le ..
  | @callOrDrop s0 now _ ih =>
      have h1 : (UpdateBucket cfg s0 now).bucket ≤ cfg.CallsPerPeriod :=
        UpdateBucket_bucket_le ..
      simp only [CallOrDrop]
      split
      · rw [MaybeCall_bucket]
        exact le_trans (Nat.sub_le _ _) h1
      · exact h1
  | call now0 nows _ hsome ih => exact Call_bucket_le _ _ _ _ _ hsome

/-- Witness for C2: the freshly constructed limiter under the spec's
example configuration is reachable and satisfies the capacity bound. -/
theorem C2_bucket_within_capacity_witness :
    Reachable cfgA (init cfgA 0) ∧
    0 ≤ (init cfgA 0).bucket ∧ (init cfgA 0).bucket ≤ cfgA.CallsPerPeriod :=
  ⟨Reachable.init (by decide) 0,
   C2_bucket_within_capacity cfgA (init cfgA 0) (Reachable.init (by decide) 0)⟩

end RateLimiter

namespace RateLimiter

theorem CallOrDrop_hasCallback (cfg : Config) (s : RLState) (now : Nat) :
    (CallOrDrop cfg s now).2.1.hasCallback = s.hasCallback := by
  simp only [CallOrDrop, MaybeCallDroppedCallCallback]
  split
  · split <;> rfl
  · rfl

theorem CallOrDrop_false (cfg : Config) (s : RLState) (now : Nat)
    (h : (CallOrDrop cfg s now).1 = false) :
    (CallOrDrop cfg s now).2.1 =
      { bucket := (UpdateBucket cfg s now).bucket,
        last := (UpdateBucket cfg s now).last,
        dropped := (s.dropped + 1) % cfg.Mui,
        hasCallback := s.hasCallback } := by
  by_cases hz : 0 < (UpdateBucket cfg s now).bucket
  · exfalso
    simp only [CallOrDrop, if_pos hz] at h
    exact absurd h (by simp)
  · simp only [CallOrDrop, if_neg hz]
    rfl

theorem CallOrDrop_true_flush (cfg : Config) (s : RLState) (now : Nat)
    (hadm : (CallOrDrop cfg s now).1 = true)
    (hcb : s.hasCallback = true) (hd : 0 < s.dropped) :
    (CallOrDrop cfg s now).2.2 = [Event.dropCb s.dropped, Event.fnCall] ∧
    (CallOrDrop cfg s now).2.1.dropped = 0 := by
  by_cases hz : 0 < (UpdateBucket cfg s now).bucket
  · have hcond : ((UpdateBucket cfg s now).hasCallback = true ∧
        0 < (UpdateBucket cfg s now).dropped) := ⟨hcb, hd⟩
    simp only [CallOrDrop, if_pos hz, MaybeCallDroppedCallCallback, if_pos hcond]
    constructor <;> simp [UpdateBucket_dropped]
  · exfalso
    simp only [CallOrDrop, if_neg hz] at hadm
    exact absurd hadm (by simp)

theorem CallOrDrop_true_dropped_cb (cfg : Config) (s : RLState) (now : Nat)
    (h : (CallOrDrop cfg s now).1 = true) (hcb : s.hasCallback = true) :
    (CallOrDrop cfg s now).2.1.dropped = 0 := by
  by_cases hz : 0 < (UpdateBucket cfg s now).bucket
  · simp only [CallOrDrop, if_pos hz, MaybeCallDroppedCallCallback]
    split
    · rfl
    · next hneg =>
        show s.dropped = 0
        rcases Nat.eq_zero_or_pos s.dropped with h0 | hp
        · exact h0
        · exact absurd ⟨hcb, hp⟩ hneg
  · exfalso
    simp only [CallOrDrop, if_neg hz] at h
    exact absurd h (by simp)

theorem CallOrDrop_true_dropped_nocb (cfg : Config) (s : RLState) (now : Nat)
    (h : (CallOrDrop cfg s now).1 = true) (hcb : s.hasCallback = false) :
    (CallOrDrop cfg s now).2.1.dropped = s.dropped := by
  by_cases hz : 0 < (UpdateBucket cfg s now).bucket
  · have hcond : ¬ ((UpdateBucket cfg s now).hasCallback = true ∧
        0 < (UpdateBucket cfg s now).dropped) := by
      intro hc
      have : s.hasCallback = true := hc.1
      rw [hcb] at this
      exact absurd this (by simp)
    simp only [CallOrDrop, if_pos hz, MaybeCallDroppedCallCallback, if_neg hcond]
    rfl
  · exfalso
    simp only [CallOrDrop, if_neg hz] at h
    exact absurd h (by simp)

theorem runCOD_all_false (cfg : Config) :
    ∀ (ts : List Nat) (s : RLState), s.dropped + ts.length < cfg.Mui →
    (runCOD cfg s ts).2.1 = List.replicate ts.length false →
    (runCOD cfg s ts).1.dropped = s.dropped + ts.length ∧
    (runCOD cfg s ts).1.hasCallback = s.hasCallback := by
  intro ts
  induction ts with
  | nil => intro s hsum hres; exact ⟨rfl, rfl⟩
  | cons t ts ih =>
      intro s hsum hres
      simp only [runCOD, List.length_cons, List.replicate_succ, List.cons.injEq] at hres ⊢
      obtain ⟨hr, hrest⟩ := hres
      have hshape := CallOrDrop_false cfg s t hr
      have hd1 : (CallOrDrop cfg s t).2.1.dropped = s.dropped + 1 := by
        rw [hshape]
        exact Nat.mod_eq_of_lt (by simp at hsum; omega)
      have hcb1 : (CallOrDrop cfg s t).2.1.hasCallback = s.hasCallback := by rw [hshape]
      have hsum1 : (CallOrDrop cfg s t).2.1.dropped + ts.length < cfg.Mui := by
        rw [hd1]; simp at hsum; omega
      obtain ⟨ih1, ih2⟩ := ih (CallOrDrop cfg s t).2.1 hsum1 hrest
      constructor
      · rw [ih1, hd1]
        omega
      · rw [ih2, hcb1]

theorem trailingDrops_mod_congr (M : Nat) :
    ∀ (l : List Bool) (a b : Nat), a % M = b % M →
    trailingDrops a l % M = trailingDrops b l % M := by
  intro l
  induction l with
  | nil =>
      intro a b h
      simpa [trailingDrops] using h
  | cons r l ih =>
      intro a b h
      cases r
      · show trailingDrops (a + 1) l % M = trailingDrops (b + 1) l % M
        apply ih
        rw [Nat.add_mod a 1 M, Nat.add_mod b 1 M, h]
      · show trailingDrops 0 l % M = trailingDrops 0 l % M
        rfl

/-- Claim C6: with a drop callback registered and no pending drops, if
`CallOrDrop` is denied `k = ts.length > 0` times consecutively (with
`k` below the `unsigned int` modulus) and a later `CallOrDrop` is
admitted, then the admitting call emits exactly the callback invocation
with argument `k` immediately followed by the `fn` invocation, and
`dropped_calls_` is zero immediately afterwards. -/
theorem C6_drop_callback_flush (cfg : Config) (s0 : RLState) (ts : List Nat) (t : Nat)
    (hM : ts.length < cfg.Mui) (hpos : 0 < ts.length)
    (hcb : s0.hasCallback = true) (hd0 : s0.dropped = 0)
    (hden : (runCOD cfg s0 ts).2.1 = List.replicate ts.length false)
    (hadm : (CallOrDrop cfg (runCOD cfg s0 ts).1 t).1 = true) :
    (CallOrDrop cfg (runCOD cfg s0 ts).1 t).2.2 =
      [Event.dropCb ts.length, Event.fnCall] ∧
    (CallOrDrop cfg (runCOD cfg s0 ts).1 t).2.1.dropped = 0 := by
  have hsum : s0.dropped + ts.length < cfg.Mui := by rw [hd0]; omega
  obtain ⟨hdrop, hcb2⟩ := runCOD_all_false cfg ts s0 hsum hden
  have hd : (runCOD cfg s0 ts).1.dropped = ts.length := by rw [hdrop, hd0]; omega
  have hflush := CallOrDrop_true_flush cfg (runCOD cfg s0 ts).1 t hadm
    (by rw [hcb2]; exact hcb) (by rw [hd]; exact hpos)
  rw [hd] at hflush
  exact hflush

/-- Witness for C6: under `cfgD` (`capacity = 1`, `period = 2`), from the
state just after an admission with the callback registered, one denial at
tick 0 followed by an admission at tick 2 emits `[dropCb 1, fnCall]` and
leaves `dropped_calls_ = 0`. -/
theorem C6_drop_callback_flush_witness :
    (runCOD cfgD { bucket := 0, last := 0, dropped := 0, hasCallback := true } [0]).2.1 =
      List.replicate 1 false ∧
    (CallOrDrop cfgD
      (runCOD cfgD { bucket := 0, last := 0, dropped := 0, hasCallback := true } [0]).1 2).2.2 =
      [Event.dropCb 1, Event.fnCall] ∧
    (CallOrDrop cfgD
      (runCOD cfgD { bucket := 0, last := 0, dropped := 0, hasCallback := true } [0]).1 2).2.1.dropped
      = 0 := by
  have h := C6_drop_callback_flush cfgD
    { bucket := 0, last := 0, dropped := 0, hasCallback := true } [0] 2
    (by decide) (by decide) (by decide) (by decide) (by decide) (by decide)
  exact ⟨by decide, h.1, h.2⟩

/-- Claim C7 (counterexample): with no drop callback registered
(`capacity = 1`, `period = 2`, construction at tick 0), the run
`CallOrDrop` at ticks `0, 0, 2` yields results `[true, false, true]` —
the third call is a successful admission — yet `dropped_calls_` is still
`1` afterwards, not zero: a successful admission only resets
`dropped_calls_` when a callback is registered. -/
theorem C7_success_without_callback_keeps_dropped :
    (runCOD cfgD (init cfgD 0) [0, 0, 2]).2.1 = [true, false, true] ∧
    (runCOD cfgD (init cfgD 0) [0, 0, 2]).1.dropped = 1 := by
  decide

/-- Claim C7 (amended): while a drop callback is registered,
`dropped_calls_` tracks (modulo the `unsigned int` modulus) the number of
calls rejected since the last successful admission — in particular every
successful admission resets it to zero; with no callback registered, a
successful admission leaves `dropped_calls_` unchanged, so it accumulates
the total (modulo the `unsigned int` modulus) of all rejections. -/
theorem C7_dropped_accounting (cfg : Config) :
    ∀ (ts : List Nat) (s : RLState), 0 < cfg.Mui → s.dropped < cfg.Mui →
    (s.hasCallback = true →
       (runCOD cfg s ts).1.dropped =
         trailingDrops s.dropped ((runCOD cfg s ts).2.1) % cfg.Mui) ∧
    (s.hasCallback = false →
       (runCOD cfg s ts).1.dropped =
         (s.dropped + ((runCOD cfg s ts).2.1.count false)) % cfg.Mui) := by
  intro ts
  induction ts with
  | nil =>
      intro s hM hd
      constructor <;> intro hcb <;> simp [runCOD, trailingDrops, Nat.mod_eq_of_lt hd]
  | cons t ts ih =>
      intro s hM hd
      have hcbp : (CallOrDrop cfg s t).2.1.hasCallback = s.hasCallback :=
        CallOrDrop_hasCallback ..
      constructor
      · intro hcb
        simp only [runCOD]
        cases hr : (CallOrDrop cfg s t).1 with
        | true =>
            have h0 : (CallOrDrop cfg s t).2.1.dropped = 0 :=
              CallOrDrop_true_dropped_cb cfg s t hr hcb
            have hih := (ih (CallOrDrop cfg s t).2.1 hM (by rw [h0]; exact hM)).1
              (by rw [hcbp]; exact hcb)
            rw [h0] at hih
            exact hih
        | false =>
            have hshape := CallOrDrop_false cfg s t hr
            have hdd : (CallOrDrop cfg s t).2.1.dropped = (s.dropped + 1) % cfg.Mui := by
              rw [hshape]
            have hlt : (CallOrDrop cfg s t).2.1.dropped < cfg.Mui := by
              rw [hdd]; exact Nat.mod_lt _ hM
            have hih := (ih (CallOrDrop cfg s t).2.1 hM hlt).1 (by rw [hcbp]; exact hcb)
            rw [hdd] at hih
            rw [hih]
            exact trailingDrops_mod_congr cfg.Mui
              ((runCOD cfg (CallOrDrop cfg s t).2.1 ts).2.1)
              ((s.dropped + 1) % cfg.Mui) (s.dropped + 1)
              (Nat.mod_mod_of_dvd _ dvd_rfl)
      · intro hcb
        simp only [runCOD]
        cases hr : (CallOrDrop cfg s t).1 with
        | true =>
            have h0 : (CallOrDrop cfg s t).2.1.dropped = s.dropped :=
              CallOrDrop_true_dropped_nocb cfg s t hr hcb
            have hih := (ih (CallOrDrop cfg s t).2.1 hM (by rw [h0]; exact hd)).2
              (by rw [hcbp]; exact hcb)
            rw [h0] at hih
            rw [hih]
            simp [List.count_cons]
        | false =>
            have hshape := CallOrDrop_false cfg s t hr
            have hdd : (CallOrDrop cfg s t).2.1.dropped = (s.dropped + 1) % cfg.Mui := by
              rw [hshape]
            have hlt : (CallOrDrop cfg s t).2.1.dropped < cfg.Mui := by
              rw [hdd]; exact Nat.mod_lt _ hM
            have hih := (ih (CallOrDrop cfg s t).2.1 hM hlt).2 (by rw [hcbp]; exact hcb)
            rw [hdd] at hih
            rw [hih, Nat.mod_add_mod]
            simp only [List.count_cons]
            congr 1
            simp
            omega

/-- Witness for C7 (amended): a concrete run `[0, 0, 2]` from a full
bucket under `cfgD` with the callback registered satisfies the
drops-since-last-success accounting. -/
theorem C7_dropped_accounting_witness :
    0 < cfgD.Mui ∧
    (runCOD cfgD { bucket := 1, last := 0, dropped := 0, hasCallback := true } [0, 0, 2]).1.dropped
      = trailingDrops 0
          ((runCOD cfgD { bucket := 1, last := 0, dropped := 0, hasCallback := true } [0, 0, 2]).2.1)
          % cfgD.Mui :=
  ⟨by decide,
   (C7_dropped_accounting cfgD [0, 0, 2]
     { bucket := 1, last := 0, dropped := 0, hasCallback := true }
     (by decide) (by decide)).1 rfl⟩

end RateLimiter

namespace RateLimiter

theorem UpdateBucket_eq_self_of_newTokens_zero (cfg : Config) (s : RLState) (now : Nat)
    (hn : newTokensAt cfg s now = 0) (hb : s.bucket ≤ cfg.CallsPerPeriod)
    (hCM : cfg.CallsPerPeriod < cfg.Mul) (hl : s.last < cfg.Mul) :
    UpdateBucket cfg s now = s := by
  have hbM : s.bucket < cfg.Mul := lt_of_le_of_lt hb hCM
  simp [UpdateBucket, hn, Nat.mod_eq_of_lt hbM, Nat.mod_eq_of_lt hl, Nat.min_eq_left hb]

theorem callLoop_of_bucket_ne (cfg : Config) (s : RLState) (l : List (Nat × Nat))
    (h : s.bucket ≠ 0) : callLoop cfg s l = some (s, []) := by
  cases l with
  | nil => simp [callLoop, h]
  | cons q rest =>
      obtain ⟨tw, tu⟩ := q
      simp [callLoop, h]

theorem UpdateBucket_bucket_pos (cfg : Config) (s : RLState) (now : Nat)
    (hb0 : s.bucket = 0) (hC : 0 < cfg.CallsPerPeriod) (hMui : 0 < cfg.Mui)
    (hui : cfg.Mui ≤ cfg.Mul) (hn : newTokensAt cfg s now ≠ 0) :
    (UpdateBucket cfg s now).bucket ≠ 0 := by
  have hnM : newTokensAt cfg s now < cfg.Mui := by
    simp only [newTokensAt]
    exact Nat.mod_lt _ hMui
  have hlt : newTokensAt cfg s now < cfg.Mul := lt_of_lt_of_le hnM hui
  simp only [UpdateBucket, hb0, Nat.zero_add, Nat.mod_eq_of_lt hlt]
  exact Nat.ne_of_gt (lt_min (Nat.pos_of_ne_zero hn) hC)

theorem newTokens_period_le (cfg : Config) (s : RLState) (now : Nat)
    (hn : newTokensAt cfg s now ≠ 0) :
    cfg.Period ≤ GetElapsedTime cfg s.last now * cfg.CallsPerPeriod := by
  have hq : GetElapsedTime cfg s.last now * cfg.CallsPerPeriod % cfg.Mul / cfg.Period ≠ 0 := by
    intro h0
    apply hn
    simp only [newTokensAt, h0, Nat.zero_mod]
  have hP : cfg.Period ≤ GetElapsedTime cfg s.last now * cfg.CallsPerPeriod % cfg.Mul := by
    by_contra hlt
    push_neg at hlt
    exact hq (Nat.div_eq_of_lt hlt)
  exact le_trans hP (Nat.mod_le _ _)

theorem callLoop_exit (cfg : Config) (hC : 0 < cfg.CallsPerPeriod)
    (hCM : cfg.CallsPerPeriod < cfg.Mul) (hMui : 0 < cfg.Mui) (hui : cfg.Mui ≤ cfg.Mul) :
    ∀ (l : List (Nat × Nat)) (s : RLState), s.bucket = 0 → s.last < cfg.Mul →
    ∀ {s2 : RLState} {ws : List Nat}, callLoop cfg s l = some (s2, ws) →
    ∃ p ∈ l, newTokensAt cfg s p.2 ≠ 0 ∧ s2 = UpdateBucket cfg s p.2 ∧
      ∀ w ∈ ws, ∃ q ∈ l, w = EstimateWaitTime cfg s q.1 := by
  intro l
  induction l with
  | nil =>
      intro s hb0 _ s2 ws h
      simp [callLoop, hb0] at h
  | cons q0 rest ih =>
      intro s hb0 hl s2 ws h
      obtain ⟨tw, tu⟩ := q0
      simp only [callLoop, if_pos hb0] at h
      by_cases hn : newTokensAt cfg s tu = 0
      · have hid : UpdateBucket cfg s tu = s :=
          UpdateBucket_eq_self_of_newTokens_zero cfg s tu hn
            (by rw [hb0]; exact Nat.zero_le _) hCM hl
        rw [hid] at h
        cases hrec : callLoop cfg s rest with
        | none => rw [hrec] at h; exact absurd h (by simp)
        | some r =>
            obtain ⟨s3, ws3⟩ := r
            rw [hrec] at h
            simp only [Option.some.injEq, Prod.mk.injEq] at h
            obtain ⟨hs3, hws⟩ := h
            obtain ⟨p, hpmem, hpn, hps, hpws⟩ := ih s hb0 hl hrec
            refine ⟨p, List.mem_cons_of_mem _ hpmem, hpn, by rw [← hs3]; exact hps, ?_⟩
            intro w hw
            rw [← hws] at hw
            rcases List.mem_cons.mp hw with hw1 | hw2
            · exact ⟨(tw, tu), List.mem_cons_self .., hw1⟩
            · obtain ⟨q, hq1, hq2⟩ := hpws w hw2
              exact ⟨q, List.mem_cons_of_mem _ hq1, hq2⟩
      · have hpos : (UpdateBucket cfg s tu).bucket ≠ 0 :=
          UpdateBucket_bucket_pos cfg s tu hb0 hC hMui hui hn
        rw [callLoop_of_bucket_ne cfg _ rest hpos] at h
        simp only [Option.some.injEq, Prod.mk.injEq] at h
        obtain ⟨hs2, hws⟩ := h
        refine ⟨(tw, tu), List.mem_cons_self .., hn, hs2.symm, ?_⟩
        intro w hw
        rw [← hws] at hw
        rcases List.mem_cons.mp hw with hw1 | hw2
        · exact ⟨(tw, tu), List.mem_cons_self .., hw1⟩
        · simp at hw2

theorem callLoop_isSome (cfg : Config) (hC : 0 < cfg.CallsPerPeriod)
    (hCM : cfg.CallsPerPeriod < cfg.Mul) (hMui : 0 < cfg.Mui) (hui : cfg.Mui ≤ cfg.Mul) :
    ∀ (l : List (Nat × Nat)) (s : RLState), s.last < cfg.Mul →
    (s.bucket ≠ 0 ∨ ∃ p ∈ l, newTokensAt cfg s p.2 ≠ 0) →
    ∃ r, callLoop cfg s l = some r := by
  intro l
  induction l with
  | nil =>
      intro s _ hor
      rcases hor with hb | hex
      · exact ⟨(s, []), callLoop_of_bucket_ne cfg s [] hb⟩
      · simp at hex
  | cons q0 rest ih =>
      intro s hl hor
      obtain ⟨tw, tu⟩ := q0
      by_cases hb : s.bucket = 0
      · rcases hor with hb' | hex
        · exact absurd hb hb'
        · by_cases hn : newTokensAt cfg s tu = 0
          · have hid : UpdateBucket cfg s tu = s :=
              UpdateBucket_eq_self_of_newTokens_zero cfg s tu hn
                (by rw [hb]; exact Nat.zero_le _) hCM hl
            have hex2 : ∃ p ∈ rest, newTokensAt cfg s p.2 ≠ 0 := by
              rcases hex with ⟨p, hp, hpn⟩
              rcases List.mem_cons.mp hp with hp1 | hmem
              · rw [hp1] at hpn
                exact absurd hn hpn
              · exact ⟨p, hmem, hpn⟩
            obtain ⟨r, hr⟩ := ih s hl (Or.inr hex2)
            obtain ⟨s3, ws3⟩ := r
            refine ⟨(s3, EstimateWaitTime cfg s tw :: ws3), ?_⟩
            simp only [callLoop, if_pos hb, hid, hr]
          · have hpos : (UpdateBucket cfg s tu).bucket ≠ 0 :=
              UpdateBucket_bucket_pos cfg s tu hb hC hMui hui hn
            refine ⟨(UpdateBucket cfg s tu, [EstimateWaitTime cfg s tw]), ?_⟩
            simp only [callLoop, if_pos hb, callLoop_of_bucket_ne cfg _ rest hpos]
      · exact ⟨(s, []), callLoop_of_bucket_ne cfg s _ hb⟩

theorem callLoop_none (cfg : Config) (hC : 0 < cfg.CallsPerPeriod)
    (hCM : cfg.CallsPerPeriod < cfg.Mul) (hMui : 0 < cfg.Mui) (hui : cfg.Mui ≤ cfg.Mul)
    (l : List (Nat × Nat)) (s : RLState) (hl : s.last < cfg.Mul)
    (h : callLoop cfg s l = none) :
    s.bucket = 0 ∧ ∀ p ∈ l, newTokensAt cfg s p.2 = 0 := by
  by_cases hb : s.bucket = 0
  · refine ⟨hb, ?_⟩
    intro p hp
    by_contra hn
    obtain ⟨r, hr⟩ := callLoop_isSome cfg hC hCM hMui hui l s hl (Or.inr ⟨p, hp, hn⟩)
    rw [hr] at h
    exact absurd h (by simp)
  · rw [callLoop_of_bucket_ne cfg s l hb] at h
    exact absurd h (by simp)

end RateLimiter

namespace RateLimiter

/-- Claim C8: `Call` has no drop path and no failure result: the model
returns `none` only when the supplied clock readings run out while no full
`period/capacity` slice has elapsed (the real loop simply keeps waiting),
and as soon as a reading credits a token it returns. On success it returns
`fn`'s result, emits exactly one `fn` invocation, never increments
`dropped_calls_`, and consumes exactly one token from the refilled bucket.
Starting from an empty refilled bucket it can only return once the elapsed
time `e` at some reading satisfies `e * capacity ≥ period`, i.e. at least
one full `period/capacity` slice has passed; and every duration passed to
`delay` is `EstimateWaitTime`'s `max(time_per_token - elapsed, 0)`. -/
theorem C8_Call_blocking_admission {α : Type} (cfg : Config) (fnRes : α) (s : RLState)
    (now0 : Nat) (nows : List (Nat × Nat)) (hWF : cfg.WF) :
    (Call cfg fnRes s now0 nows = none →
       (UpdateBucket cfg s now0).bucket = 0 ∧
       ∀ p ∈ nows, newTokensAt cfg (UpdateBucket cfg s now0) p.2 = 0) ∧
    ((UpdateBucket cfg s now0).bucket ≠ 0 ∨
       (∃ p ∈ nows, newTokensAt cfg (UpdateBucket cfg s now0) p.2 ≠ 0) →
       ∃ r, Call cfg fnRes s now0 nows = some r) ∧
    (∀ (v : α) (s' : RLState) (evs : List Event) (ws : List Nat),
       Call cfg fnRes s now0 nows = some (v, s', evs, ws) →
       v = fnRes ∧
       evs.count Event.fnCall = 1 ∧
       (s'.dropped = 0 ∨ s'.dropped = s.dropped) ∧
       (∃ s2 : RLState, 0 < s2.bucket ∧ s2.bucket ≤ cfg.CallsPerPeriod ∧
          s'.bucket = s2.bucket - 1 ∧
          (s2 = UpdateBucket cfg s now0 ∨
            ∃ p ∈ nows, s2 = UpdateBucket cfg (UpdateBucket cfg s now0) p.2)) ∧
       ((UpdateBucket cfg s now0).bucket = 0 →
          ∃ p ∈ nows, cfg.Period ≤
            GetElapsedTime cfg (UpdateBucket cfg s now0).last p.2 * cfg.CallsPerPeriod) ∧
       (∀ w ∈ ws, ∃ q ∈ nows, w = EstimateWaitTime cfg (UpdateBucket cfg s now0) q.1)) := by
  obtain ⟨hP, hPM, hC, hCM, hMui, hui⟩ := hWF
  have hMul : 0 < cfg.Mul := lt_of_le_of_lt (Nat.zero_le _) hPM
  have hs1l : (UpdateBucket cfg s now0).last < cfg.Mul := UpdateBucket_last_lt cfg s now0 hMul
  have hs1b : (UpdateBucket cfg s now0).bucket ≤ cfg.CallsPerPeriod := UpdateBucket_bucket_le ..
  refine ⟨?_, ?_, ?_⟩
  · intro hnone
    simp only [Call] at hnone
    cases hloop : callLoop cfg (UpdateBucket cfg s now0) nows with
    | none => exact callLoop_none cfg hC hCM hMui hui nows _ hs1l hloop
    | some r =>
        obtain ⟨s2, ws2⟩ := r
        rw [hloop] at hnone
        exact absurd hnone (by simp)
  · intro hor
    obtain ⟨r, hr⟩ := callLoop_isSome cfg hC hCM hMui hui nows _ hs1l hor
    obtain ⟨s2, ws2⟩ := r
    exact ⟨(fnRes,
      { (MaybeCallDroppedCallCallback s2).1 with
          bucket := (MaybeCallDroppedCallCallback s2).1.bucket - 1 },
      (MaybeCallDroppedCallCallback s2).2 ++ [Event.fnCall], ws2),
      by simp only [Call, hr]⟩
  · intro v s' evs ws hcall
    simp only [Call] at hcall
    cases hloop : callLoop cfg (UpdateBucket cfg s now0) nows with
    | none => rw [hloop] at hcall; exact absurd hcall (by simp)
    | some r =>
        obtain ⟨s2, ws2⟩ := r
        rw [hloop] at hcall
        simp only [Option.some.injEq, Prod.mk.injEq] at hcall
        obtain ⟨hv, hs', hevs, hws⟩ := hcall
        refine ⟨hv.symm, ?_, ?_, ?_, ?_, ?_⟩
        · rw [← hevs]
          simp [List.count_append, MaybeCall_count_fnCall]
        · rw [← hs']
          show (MaybeCallDroppedCallCallback s2).1.dropped = 0 ∨
            (MaybeCallDroppedCallCallback s2).1.dropped = s.dropped
          rcases MaybeCall_dropped s2 with h0 | hsame
          · exact Or.inl h0
          · right
            rw [hsame]
            by_cases hb1 : (UpdateBucket cfg s now0).bucket = 0
            · obtain ⟨p, hpmem, hpn, hps2, _⟩ :=
                callLoop_exit cfg hC hCM hMui hui nows _ hb1 hs1l hloop
              rw [hps2, UpdateBucket_dropped, UpdateBucket_dropped]
            · have heq := callLoop_of_bucket_ne cfg (UpdateBucket cfg s now0) nows hb1
              rw [hloop] at heq
              simp only [Option.some.injEq, Prod.mk.injEq] at heq
              rw [heq.1, UpdateBucket_dropped]
        · by_cases hb1 : (UpdateBucket cfg s now0).bucket = 0
          · obtain ⟨p, hpmem, hpn, hps2, _⟩ :=
              callLoop_exit cfg hC hCM hMui hui nows _ hb1 hs1l hloop
            refine ⟨s2, ?_, ?_, ?_, Or.inr ⟨p, hpmem, hps2⟩⟩
            · have := UpdateBucket_bucket_pos cfg (UpdateBucket cfg s now0) p.2 hb1 hC hMui hui hpn
              rw [← hps2] at this
              exact Nat.pos_of_ne_zero this
            · rw [hps2]
              exact UpdateBucket_bucket_le ..
            · rw [← hs']
              show (MaybeCallDroppedCallCallback s2).1.bucket - 1 = s2.bucket - 1
              rw [MaybeCall_bucket]
          · have heq := callLoop_of_bucket_ne cfg (UpdateBucket cfg s now0) nows hb1
            rw [hloop] at heq
            simp only [Option.some.injEq, Prod.mk.injEq] at heq
            refine ⟨s2, ?_, ?_, ?_, Or.inl heq.1⟩
            · rw [heq.1]
              exact Nat.pos_of_ne_zero hb1
            · rw [heq.1]
              exact hs1b
            · rw [← hs']
              show (MaybeCallDroppedCallCallback s2).1.bucket - 1 = s2.bucket - 1
              rw [MaybeCall_bucket]
        · intro hb1
          obtain ⟨p, hpmem, hpn, _, _⟩ :=
            callLoop_exit cfg hC hCM hMui hui nows _ hb1 hs1l hloop
          exact ⟨p, hpmem, newTokens_period_le cfg (UpdateBucket cfg s now0) p.2 hpn⟩
        · intro w hw
          rw [← hws] at hw
          by_cases hb1 : (UpdateBucket cfg s now0).bucket = 0
          · obtain ⟨p, hpmem, hpn, hps2, hpws⟩ :=
              callLoop_exit cfg hC hCM hMui hui nows _ hb1 hs1l hloop
            exact hpws w hw
          · have heq := callLoop_of_bucket_ne cfg (UpdateBucket cfg s now0) nows hb1
            rw [hloop] at heq
            simp only [Option.some.injEq, Prod.mk.injEq] at heq
            rw [heq.2] at hw
            simp at hw

/-- Witness for C8: under `cfgD` (`capacity = 1`, `period = 2`), starting
from an empty bucket at tick 0 with a wait reading at tick 0 and an update
reading at tick 2, the blocking call is admitted. -/
theorem C8_Call_blocking_admission_witness :
    cfgD.WF ∧
    ∃ r, Call cfgD (0 : Nat) { bucket := 0, last := 0, dropped := 0, hasCallback := false } 0
      [(0, 2)] = some r :=
  ⟨by decide,
   (C8_Call_blocking_admission cfgD (0 : Nat)
       { bucket := 0, last := 0, dropped := 0, hasCallback := false } 0 [(0, 2)]
       (by decide)).2.1
     (Or.inr ⟨(0, 2), by decide, by decide⟩)⟩

end RateLimiter
